import Mathlib

/-!
Verification of the contact-directory engine of this repository
(files `07.py` and `hw_07.py`) against its specification.

The development shallowly embeds the Python sources:

* Python `datetime` values are embedded as year/month/day/seconds records,
  with the proleptic-Gregorian ordinal (`toOrd`, matching
  `datetime.toordinal`: 0001-01-01 has ordinal 1 and is a Monday),
  field-wise comparison, floor-division day differences
  (`timedelta.days`), `replace(year=...)` with re-validation, and
  `strftime("%d.%m.%Y")` rendering.
* Fallible constructors and handlers return `Except PyErr`, whose
  `error` values stand for raised Python exceptions; the per-command
  `input_error` translator of `07.py` is embedded as `runCommand`.
* Mutation is embedded by explicit state passing: each command handler
  takes the address book and returns the message together with the
  resulting book.
-/

/-- Python exception kinds raised by the engine. `phoneError`,
`birthdayError` and `recordError` embed the custom `PhoneError`,
`BirthdayError` and `RecordError` classes of `07.py` (plain `Exception`
subclasses, hence not caught by `except ValueError`); `valueError` and
`indexError` embed the builtin exceptions. -/
inductive PyErr where
  | phoneError
  | birthdayError
  | recordError
  | valueError
  | indexError
deriving DecidableEq, Repr

/-- Message carried by each of the custom exception classes of `07.py`
(`PhoneError.__init__`, `BirthdayError.__init__`, `RecordError.MESSAGE`).
The builtin exceptions carry varying messages that the translator never
surfaces; they are given placeholder renderings. -/
def errMsg : PyErr → String
  | .phoneError => "Give me a valid phone number, please."
  | .birthdayError => "Invalid date format. Use DD.MM.YYYY"
  | .recordError => "Give me an existing name, please."
  | .valueError => "ValueError"
  | .indexError => "IndexError"

/-- Gregorian leap-year rule used by Python `datetime`. -/
def isLeap (y : Nat) : Bool :=
  decide (y % 4 = 0 ∧ (y % 100 ≠ 0 ∨ y % 400 = 0))

/-- Number of days of month `m` of year `y` (Python `calendar` rule,
used by `datetime` validation). -/
def daysInMonth (y m : Nat) : Nat :=
  if m = 2 then (if isLeap y then 29 else 28)
  else if m = 4 ∨ m = 6 ∨ m = 9 ∨ m = 11 then 30
  else 31

/-- Number of days of year `y` strictly before month `m`. -/
def daysBeforeMonth (y m : Nat) : Nat :=
  (if m = 1 then 0
   else if m = 2 then 31
   else if m = 3 then 59
   else if m = 4 then 90
   else if m = 5 then 120
   else if m = 6 then 151
   else if m = 7 then 181
   else if m = 8 then 212
   else if m = 9 then 243
   else if m = 10 then 273
   else if m = 11 then 304
   else 334)
  + (if 3 ≤ m ∧ isLeap y then 1 else 0)

/-- Calendar date: year, month, day. -/
structure Ymd where
  y : Nat
  m : Nat
  d : Nat
deriving DecidableEq, Repr

/-- A real calendar date as accepted by Python `datetime` construction
(the upper year bound 9999 is checked separately where Python checks
it). -/
def validYMD (x : Ymd) : Prop :=
  1 ≤ x.y ∧ 1 ≤ x.m ∧ x.m ≤ 12 ∧ 1 ≤ x.d ∧ x.d ≤ daysInMonth x.y x.m

instance (x : Ymd) : Decidable (validYMD x) := by
  unfold validYMD; infer_instance

/-- Python `date.toordinal`: day count in the proleptic Gregorian
calendar with 0001-01-01 as day 1 (a Monday). -/
def toOrd (x : Ymd) : Nat :=
  365 * (x.y - 1) + (x.y - 1) / 4 - (x.y - 1) / 100 + (x.y - 1) / 400
    + daysBeforeMonth x.y x.m + x.d

/-- Python `date.weekday`: Monday is 0, Sunday is 6. -/
def weekday (x : Ymd) : Nat :=
  (toOrd x - 1) % 7

/-- Successor date in the Gregorian calendar. -/
def nextDay (x : Ymd) : Ymd :=
  if x.d < daysInMonth x.y x.m then ⟨x.y, x.m, x.d + 1⟩
  else if x.m < 12 then ⟨x.y, x.m + 1, 1⟩
  else ⟨x.y + 1, 1, 1⟩

/-- Date shifted forward by `k` days. -/
def addDaysYmd : Ymd → Nat → Ymd
  | x, 0 => x
  | x, k + 1 => addDaysYmd (nextDay x) k

/-- Python `datetime` value: a calendar date plus the seconds elapsed
within the day (`strptime` of a pure date pattern yields midnight,
`secs = 0`; `datetime.today()` carries the wall-clock time). -/
structure PyDateTime where
  date : Ymd
  secs : Nat
deriving DecidableEq, Repr

/-- Python `datetime` comparison (field-wise lexicographic). -/
def dtLt (a b : PyDateTime) : Bool :=
  if a.date.y = b.date.y then
    if a.date.m = b.date.m then
      if a.date.d = b.date.d then decide (a.secs < b.secs)
      else decide (a.date.d < b.date.d)
    else decide (a.date.m < b.date.m)
  else decide (a.date.y < b.date.y)

/-- Python `(a - b).days`: the full-day part of the difference, rounded
toward negative infinity as `timedelta` normalisation does. -/
def subDays (a b : PyDateTime) : Int :=
  (((toOrd a.date : Int) - (toOrd b.date : Int)) * 86400
    + ((a.secs : Int) - (b.secs : Int))).fdiv 86400

/-- Python `dt + timedelta(days=k)` for `k ≥ 0`: shifts the date,
keeps the time of day. -/
def addDaysDT (dt : PyDateTime) (k : Nat) : PyDateTime :=
  ⟨addDaysYmd dt.date k, dt.secs⟩

/-- Python `dt.replace(year=ny)`: keeps month, day and time, and
re-validates the assembled date (so 29 February raises `ValueError`,
embedded as `none`, when `ny` is not a leap year). -/
def replaceYear (dt : PyDateTime) (ny : Nat) : Option PyDateTime :=
  if 1 ≤ ny ∧ ny ≤ 9999 ∧ 1 ≤ dt.date.m ∧ dt.date.m ≤ 12
      ∧ 1 ≤ dt.date.d ∧ dt.date.d ≤ daysInMonth ny dt.date.m then
    some ⟨⟨ny, dt.date.m, dt.date.d⟩, dt.secs⟩
  else none

/-- Decimal digits of a natural number, as Python `str` renders it. -/
def natDigits (n : Nat) : String :=
  Nat.repr n

/-- Zero-padded two-digit field of `strftime` (`%d`, `%m`). -/
def pad2 (n : Nat) : String :=
  if n < 10 then "0" ++ natDigits n else natDigits n

/-- Zero-padded four-digit year field of `strftime` (`%Y`). -/
def pad4 (n : Nat) : String :=
  if n < 10 then "000" ++ natDigits n
  else if n < 100 then "00" ++ natDigits n
  else if n < 1000 then "0" ++ natDigits n
  else natDigits n

/-- Value of a digit character. -/
def digitVal (c : Char) : Nat :=
  c.toNat - 48

/-- Number denoted by a digit string (Python `int` on an all-digit
string). -/
def digitsToNat (l : List Char) : Nat :=
  l.foldl (fun n c => n * 10 + digitVal c) 0

/-- Split a character list at the dots, embedding the structure of the
fixed pattern `%d.%m.%Y`: the literal dots separate the three numeric
fields. -/
def splitDotsAux : List Char → List Char → List (List Char)
  | [], cur => [cur.reverse]
  | c :: rest, cur =>
    if c = '.' then cur.reverse :: splitDotsAux rest []
    else splitDotsAux rest (c :: cur)

/-- All dot-separated fields of a string. -/
def splitDots (s : String) : List (List Char) :=
  splitDotsAux s.data []

/-- Python `str.isdigit` restricted to ASCII (the engine only ever
compares digit counts and decimal digits): true on non-empty strings of
decimal digits. -/
def isdigitStr (s : String) : Bool :=
  !s.data.isEmpty && s.data.all Char.isDigit

/-- `Phone.__init__` of `07.py`: raise `PhoneError` unless the value is
exactly 10 characters, all decimal digits; otherwise store the string
unchanged. (`hw_07.py` has the same test with a builtin `ValueError`.) -/
def mkPhone (s : String) : Except PyErr String :=
  if s.length ≠ 10 ∨ ¬ isdigitStr s then .error .phoneError
  else .ok s

/-- `Birthday.__init__` of `07.py`: `datetime.strptime(value, "%d.%m.%Y")`,
raising `BirthdayError` when parsing fails. `%d` and `%m` accept one or
two digits, `%Y` one to four digits, the dots are literal, and the
assembled date must be a real calendar date. -/
def mkBirthday (s : String) : Except PyErr PyDateTime :=
  match splitDots s with
  | [ds, ms, ys] =>
    if 1 ≤ ds.length ∧ ds.length ≤ 2 ∧ ds.all Char.isDigit
        ∧ 1 ≤ ms.length ∧ ms.length ≤ 2 ∧ ms.all Char.isDigit
        ∧ 1 ≤ ys.length ∧ ys.length ≤ 4 ∧ ys.all Char.isDigit then
      if validYMD ⟨digitsToNat ys, digitsToNat ms, digitsToNat ds⟩
          ∧ digitsToNat ys ≤ 9999 then
        .ok ⟨⟨digitsToNat ys, digitsToNat ms, digitsToNat ds⟩, 0⟩
      else .error .birthdayError
    else .error .birthdayError
  | _ => .error .birthdayError

/-- `Name` of `07.py`: the class adds nothing to `Field`, so any string
is stored unchanged and construction never fails. -/
def mkName07 (s : String) : Except PyErr String :=
  .ok s

/-- `Name.__init__` of `hw_07.py`: `if not name: raise ValueError(...)`.
The only falsy string is the empty string, so exactly the empty string
is rejected. -/
def mkNameHw (s : String) : Except PyErr String :=
  if s = "" then .error .valueError else .ok s

/-- A contact record of `07.py`: one name (`Name` stores the raw
string), an ordered list of validated phone strings (`Phone.value`),
and an optional birthday (`Birthday.value`, a midnight datetime). -/
structure PyRecord where
  name : String
  phones : List String
  birthday : Option PyDateTime
deriving DecidableEq, Repr

namespace PyRecord

/-- `Record.__find` of `07.py`: index of the first phone whose value
equals the argument, if any. -/
def findIdx : List String → String → Option Nat
  | [], _ => none
  | q :: rest, p => if q = p then some 0 else (findIdx rest p).map (· + 1)

/-- `Record.add_phone`: construct a `Phone` (propagating `PhoneError`)
and append it. -/
def add_phone (r : PyRecord) (phone : String) : Except PyErr PyRecord :=
  match mkPhone phone with
  | .error e => .error e
  | .ok p => .ok { r with phones := r.phones ++ [p] }

/-- `Record.remove_phone`: delete the first matching phone, if any. -/
def remove_phone (r : PyRecord) (phone : String) : PyRecord :=
  match findIdx r.phones phone with
  | some i => { r with phones := r.phones.eraseIdx i }
  | none => r

/-- `Record.edit_phone`: find the first phone equal to `cur`
(`ValueError` if absent), then build `Phone new` (raising `PhoneError`
before any mutation) and only then overwrite the slot. The returned
record is the state after the call, also on failure. -/
def edit_phone (r : PyRecord) (cur new : String) :
    PyRecord × Except PyErr Unit :=
  match findIdx r.phones cur with
  | none => (r, .error .valueError)
  | some i =>
    match mkPhone new with
    | .error e => (r, .error e)
    | .ok p => ({ r with phones := r.phones.set i p }, .ok ())

/-- `Record.find_phone`: first matching phone, or `none`. -/
def find_phone (r : PyRecord) (phone : String) : Option String :=
  match findIdx r.phones phone with
  | some i => r.phones.get? i
  | none => none

/-- `Record.add_birthday`: construct a `Birthday` (propagating
`BirthdayError`) and store it, overwriting any previous value. -/
def add_birthday (r : PyRecord) (s : String) : Except PyErr PyRecord :=
  match mkBirthday s with
  | .error e => .error e
  | .ok b => .ok { r with birthday := some b }

/-- `Record.__str__` of `07.py`. -/
def render (r : PyRecord) : String :=
  "Contact name: " ++ r.name ++ ", phones: "
    ++ String.intercalate "; " r.phones

end PyRecord

/-- The address book of `07.py`: a `UserDict` mapping name keys to
records, embedded as an insertion-ordered association list (Python
dicts preserve insertion order; assignment to an existing key keeps its
position). -/
abbrev Book := List (String × PyRecord)

namespace AddressBook

/-- Dict read `self.data.get(name)`. -/
def lookupA : Book → String → Option PyRecord
  | [], _ => none
  | (k, r) :: rest, n => if k = n then some r else lookupA rest n

/-- Dict assignment `self.data[k] = r`: overwrite in place, or append a
new key at the end. -/
def setKey : Book → String → PyRecord → Book
  | [], k, r => [(k, r)]
  | (k', r') :: rest, k, r =>
    if k' = k then (k', r) :: rest else (k', r') :: setKey rest k r

/-- `AddressBook.add_record`: insert keyed by `record.name.value`,
silently overwriting an existing key. -/
def add_record (book : Book) (r : PyRecord) : Book :=
  setKey book r.name r

/-- `AddressBook.find`: exact lookup, raising `RecordError` when the
name is absent. -/
def find (book : Book) (n : String) : Except PyErr PyRecord :=
  match lookupA book n with
  | none => .error .recordError
  | some r => .ok r

/-- `AddressBook.delete`: remove the first entry whose record name
matches, then stop; no-op when absent. -/
def delete : Book → String → Book
  | [], _ => []
  | (k, r) :: rest, n =>
    if r.name = n then rest else (k, r) :: delete rest n

/-- `AddressBook.date_to_string`: `strftime("%d.%m.%Y")`. -/
def date_to_string (dt : PyDateTime) : String :=
  pad2 dt.date.d ++ "." ++ pad2 dt.date.m ++ "." ++ pad4 dt.date.y

/-- `AddressBook.find_next_weekday`: days ahead to the requested
weekday, always moving strictly forward (a non-positive gap gains a
week). -/
def find_next_weekday (start : PyDateTime) (wd : Nat) : PyDateTime :=
  let daysAhead : Int := (wd : Int) - (weekday start.date : Int)
  let daysAhead := if daysAhead ≤ 0 then daysAhead + 7 else daysAhead
  addDaysDT start daysAhead.toNat

/-- `AddressBook.adjust_for_weekend`: shift Saturday and Sunday
occurrences to the next Monday, leave weekdays unchanged. -/
def adjust_for_weekend (b : PyDateTime) : PyDateTime :=
  if 5 ≤ weekday b.date then find_next_weekday b 0 else b

/-- Occurrence of the stored birthday relative to `today`, as computed
inside `get_upcoming_birthdays`: `birthday.replace(year=today.year)`,
rolled to next year when strictly earlier than `today`; `none` embeds a
raised `ValueError` from `replace`. -/
def occOf (b today : PyDateTime) : Option PyDateTime :=
  match replaceYear b today.date.y with
  | none => none
  | some real =>
    if dtLt real today then replaceYear real (today.date.y + 1)
    else some real

/-- Append `n` under key `k` in the accumulated mapping, creating the
key at the end when new (`dates[event].append(name)` on a dict). -/
def addToKey (acc : List (String × List String)) (k n : String) :
    List (String × List String) :=
  match acc with
  | [] => [(k, [n])]
  | (k', l) :: rest =>
    if k' = k then (k', l ++ [n]) :: rest
    else (k', l) :: addToKey rest k n

/-- Loop body of `AddressBook.get_upcoming_birthdays` over the dict
items, threading the accumulated date-to-names mapping. -/
def upcomingAux (today : PyDateTime) (days : Nat) :
    Book → List (String × List String) →
    Except PyErr (List (String × List String))
  | [], acc => .ok acc
  | (name, r) :: rest, acc =>
    match r.birthday with
    | none => upcomingAux today days rest acc
    | some b =>
      match occOf b today with
      | none => .error .valueError
      | some real =>
        if 0 ≤ subDays real today ∧ subDays real today ≤ (days : Int) then
          upcomingAux today days rest
            (addToKey acc (date_to_string (adjust_for_weekend real)) name)
        else upcomingAux today days rest acc

/-- `AddressBook.get_upcoming_birthdays` of `07.py`, with the ambient
clock `datetime.today()` made explicit as the `today` parameter. -/
def get_upcoming_birthdays (book : Book) (today : PyDateTime)
    (days : Nat) : Except PyErr (List (String × List String)) :=
  upcomingAux today days book []

end AddressBook

/-- Left-justify with spaces (Python `str.ljust`). -/
def ljust (s : String) (w : Nat) : String :=
  s ++ String.mk (List.replicate (w - s.length) ' ')

/-- Right-justify with spaces (Python `str.rjust`). -/
def rjust (s : String) (w : Nat) : String :=
  String.mk (List.replicate (w - s.length) ' ') ++ s

/-- A character repeated `n` times (Python `c * n`). -/
def repChar (c : Char) (n : Nat) : String :=
  String.mk (List.replicate n c)

/-- Largest element of a list of lengths; the Python `max([...])` call
raises `ValueError` on an empty list, which callers of `table` hit when
the data dict is empty. -/
def listMax (l : List Nat) : Nat :=
  l.foldl max 0

namespace Bot

/-- The `table` display helper of `07.py`. On an empty data dict the
first `max([...])` raises `ValueError`. Column widths are the longest
cell, widened to the header when the header is longer. The header row
uses the header texts, each data row its own pair (the two inner
closures read the current loop variables). -/
def table (left right : String) (data : List (String × String)) :
    Except PyErr String :=
  match data with
  | [] => .error .valueError
  | _ =>
    let ll0 := listMax (data.map (fun kv => kv.1.length))
    let ll := if ll0 < left.length then left.length else ll0
    let lr0 := listMax (data.map (fun kv => kv.2.length))
    let lr := if lr0 < right.length then right.length else lr0
    let divider := fun (l r m : String) (c : Char) =>
      l ++ repChar c (ll + 2) ++ m ++ repChar c (lr + 2) ++ r
    let row := fun (a b : String) =>
      "║ " ++ ljust a ll ++ " │ " ++ rjust b lr ++ " ║"
    let rows :=
      [divider "╔" "╗" "╤" '═', row left right, divider "╟" "╢" "┼" '─']
        ++ data.map (fun kv => row kv.1 kv.2)
        ++ [divider "╚" "╝" "╧" '═']
    .ok (String.intercalate "\n" rows)

/-- The `add_contact` handler of `07.py`: unpack two arguments
(`ValueError` on fewer), guard on existence (the handler catches the
`RecordError` of `book.find` itself), else build the record, add the
phone (propagating `PhoneError`) and insert. -/
def add_contact (args : List String) (book : Book) :
    Except PyErr (String × Book) :=
  match args with
  | name :: phone :: _ =>
    (match AddressBook.lookupA book name with
     | some _ => .ok ("Contact is already added.", book)
     | none =>
       match PyRecord.add_phone ⟨name, [], none⟩ phone with
       | .error e => .error e
       | .ok rec1 => .ok ("Contact added.", AddressBook.add_record book rec1))
  | _ => .error .valueError

/-- The `change_contact` handler of `07.py`: find the record
(`RecordError`), read `record.phones[0]` (`IndexError` on a phone-less
record), and edit in place. -/
def change_contact (args : List String) (book : Book) :
    Except PyErr (String × Book) :=
  match args with
  | name :: phone :: _ =>
    (match AddressBook.find book name with
     | .error e => .error e
     | .ok rec =>
       match rec.phones with
       | [] => .error .indexError
       | p0 :: _ =>
         match PyRecord.edit_phone rec p0 phone with
         | (_, .error e) => .error e
         | (rec1, .ok _) => .ok ("Contact updated.", AddressBook.setKey book name rec1))
  | _ => .error .valueError

/-- The `show_phone` handler of `07.py`: `args[0]` (`IndexError` when
empty), then render the found record. -/
def show_phone (args : List String) (book : Book) :
    Except PyErr (String × Book) :=
  match args with
  | [] => .error .indexError
  | name :: _ =>
    match AddressBook.find book name with
    | .error e => .error e
    | .ok rec => .ok (PyRecord.render rec, book)

/-- The dict comprehension of `show_all`: pair each name with
`record.phones[0]`, raising `IndexError` at the first phone-less
record. -/
def allPairs : Book → Except PyErr (List (String × String))
  | [] => .ok []
  | (n, r) :: rest =>
    match r.phones with
    | [] => .error .indexError
    | p :: _ =>
      match allPairs rest with
      | .error e => .error e
      | .ok l => .ok ((n, p) :: l)

/-- The `show_all` handler of `07.py`: build the name-to-first-phone
dict (`record.phones[0]` raises `IndexError` on a phone-less record)
and render it with `table` (`ValueError` on an empty book). -/
def show_all (book : Book) : Except PyErr (String × Book) :=
  match allPairs book with
  | .error e => .error e
  | .ok data =>
    match table "Full name" "Phone number" data with
    | .error e => .error e
    | .ok s => .ok (s, book)

/-- The module-level `add_birthday` handler of `07.py`: unpack two
arguments, find the record, and store the parsed birthday. -/
def add_birthday (args : List String) (book : Book) :
    Except PyErr (String × Book) :=
  match args with
  | name :: bd :: _ =>
    (match AddressBook.find book name with
     | .error e => .error e
     | .ok rec =>
       match PyRecord.add_birthday rec bd with
       | .error e => .error e
       | .ok rec1 => .ok ("Birthday added.", AddressBook.setKey book name rec1))
  | _ => .error .valueError

/-- Rendering of `record.birthday` by the `show_birthday` handler:
`str` applied to an `Optional[Birthday]`. Python `str(None)` is the
string `None`; on a present `Birthday`, `Birthday.__str__` renders via
`strftime` (its `Unknown` branch is unreachable, because construction
always stores a truthy `datetime`). -/
def strBirthdayOpt : Option PyDateTime → String
  | none => "None"
  | some b => AddressBook.date_to_string b

/-- The `show_birthday` handler of `07.py`: `args[0]`, find the record,
and render its optional birthday. -/
def show_birthday (args : List String) (book : Book) :
    Except PyErr (String × Book) :=
  match args with
  | [] => .error .indexError
  | name :: _ =>
    match AddressBook.find book name with
    | .error e => .error e
    | .ok rec => .ok (strBirthdayOpt rec.birthday, book)

/-- The `birthdays` handler of `07.py`: query the upcoming birthdays
(window 7) and render the date-to-names dict with `table`. -/
def birthdays (today : PyDateTime) (book : Book) :
    Except PyErr (String × Book) :=
  match AddressBook.get_upcoming_birthdays book today 7 with
  | .error e => .error e
  | .ok events =>
    match table "Date" "Users"
        (events.map (fun kv => (kv.1, String.intercalate ", " kv.2))) with
    | .error e => .error e
    | .ok s => .ok (s, book)

end Bot

/-- The recognised command handlers wrapped by `input_error`. -/
inductive Cmd where
  | addContact
  | changeContact
  | showPhone
  | showAll
  | addBirthday
  | showBirthday
  | birthdaysCmd
deriving DecidableEq, Repr

/-- The `input_error` translator of `07.py`, dispatched per command
name: each wrapper catches exactly the exception classes of its
`except` clauses, turning them into user-facing message strings
(returning an exception instance is embedded as returning its message);
any other exception propagates (`.error`). The caught branches return
the book unchanged, as every handler raises before mutating it. -/
def runCommand (cmd : Cmd) (today : PyDateTime) (args : List String)
    (book : Book) : Except PyErr (String × Book) :=
  match cmd with
  | .addContact =>
    (match Bot.add_contact args book with
     | .ok r => .ok r
     | .error .phoneError => .ok (errMsg .phoneError, book)
     | .error .valueError => .ok ("Give me a new name and a new phone, please.", book)
     | .error e => .error e)
  | .changeContact =>
    (match Bot.change_contact args book with
     | .ok r => .ok r
     | .error .phoneError => .ok (errMsg .phoneError, book)
     | .error .recordError => .ok (errMsg .recordError, book)
     | .error .valueError => .ok ("Give me an existing name and a new phone, please.", book)
     | .error e => .error e)
  | .showPhone =>
    (match Bot.show_phone args book with
     | .ok r => .ok r
     | .error .recordError => .ok (errMsg .recordError, book)
     | .error .indexError => .ok (errMsg .recordError, book)
     | .error e => .error e)
  | .showAll =>
    (match Bot.show_all book with
     | .ok r => .ok r
     | .error .valueError => .ok ("Contacts list is empty.", book)
     | .error e => .error e)
  | .addBirthday =>
    (match Bot.add_birthday args book with
     | .ok r => .ok r
     | .error .birthdayError => .ok (errMsg .birthdayError, book)
     | .error .recordError => .ok (errMsg .recordError, book)
     | .error .valueError => .ok ("Give me an existing name and birthday date, please.", book)
     | .error e => .error e)
  | .showBirthday =>
    (match Bot.show_birthday args book with
     | .ok r => .ok r
     | .error .indexError => .ok (errMsg .recordError, book)
     | .error .recordError => .ok (errMsg .recordError, book)
     | .error e => .error e)
  | .birthdaysCmd =>
    (match Bot.birthdays today book with
     | .ok r => .ok r
     | .error .valueError => .ok ("Birthdays list is empty.", book)
     | .error e => .error e)

/-- Lookup in the accumulated date-to-names mapping. -/
def lookupEvents : List (String × List String) → String → Option (List String)
  | [], _ => none
  | (k, l) :: rest, k' => if k = k' then some l else lookupEvents rest k'

/-- Names listed under key `k` (empty when the key is absent). -/
def keyList (m : List (String × List String)) (k : String) : List String :=
  (lookupEvents m k).getD []

/-- Name `x` appears somewhere in the mapping. -/
def hasName (m : List (String × List String)) (x : String) : Prop :=
  ∃ kl, kl ∈ m ∧ x ∈ kl.2

/-- Key and name coherence: every stored key equals the name of the
record it maps to. -/
def coherent (book : Book) : Prop :=
  ∀ kv ∈ book, kv.2.name = kv.1

/-! ### Calendar lemmas -/

theorem one_le_daysInMonth (y m : Nat) : 1 ≤ daysInMonth y m := by
  unfold daysInMonth
  split_ifs <;> omega

theorem daysBeforeMonth_succ (y m : Nat) (h1 : 1 ≤ m) (h2 : m ≤ 11) :
    daysBeforeMonth y (m + 1) = daysBeforeMonth y m + daysInMonth y m := by
  interval_cases m <;> cases hL : isLeap y <;>
    simp [daysBeforeMonth, daysInMonth, hL]

theorem nextDay_valid_toOrd (x : Ymd) (h : validYMD x) :
    validYMD (nextDay x) ∧ toOrd (nextDay x) = toOrd x + 1 := by
  obtain ⟨hy, hm1, hm2, hd1, hd2⟩ := h
  unfold nextDay
  split_ifs with h1 h2
  · constructor
    · simp only [validYMD]
      omega
    · simp only [toOrd]
      omega
  · have hd : x.d = daysInMonth x.y x.m := by omega
    have hdbm := daysBeforeMonth_succ x.y x.m hm1 (by omega)
    have hdim := one_le_daysInMonth x.y (x.m + 1)
    constructor
    · simp only [validYMD]
      omega
    · simp only [toOrd]
      omega
  · have hm : x.m = 12 := by omega
    have hdim12 : daysInMonth x.y x.m = 31 := by
      rw [hm]
      simp [daysInMonth]
    have hd : x.d = 31 := by omega
    have hdim1 := one_le_daysInMonth (x.y + 1) 1
    constructor
    · simp only [validYMD]
      omega
    · have hb1 : daysBeforeMonth (x.y + 1) 1 = 0 := by
        simp [daysBeforeMonth]
      by_cases hyl : x.y % 4 = 0 ∧ (x.y % 100 ≠ 0 ∨ x.y % 400 = 0)
      · have hb12 : daysBeforeMonth x.y 12 = 335 := by
          simp [daysBeforeMonth, isLeap, hyl]
        simp only [toOrd]
        rw [hm, hd, hb1, hb12]
        obtain ⟨h4, hor⟩ := hyl
        have a4 : x.y / 4 = (x.y - 1) / 4 + 1 := by omega
        rcases hor with h100 | h400
        · have h400 : x.y % 400 ≠ 0 := by omega
          have a100 : x.y / 100 = (x.y - 1) / 100 := by omega
          have a400 : x.y / 400 = (x.y - 1) / 400 := by omega
          simp only [Nat.add_sub_cancel]
          rw [a4, a100, a400]
          omega
        · have h100 : x.y % 100 = 0 := by omega
          have a100 : x.y / 100 = (x.y - 1) / 100 + 1 := by omega
          have a400 : x.y / 400 = (x.y - 1) / 400 + 1 := by omega
          have b100 : (x.y - 1) / 100 + 1 ≤ (x.y - 1) / 4 + 1 := by omega
          simp only [Nat.add_sub_cancel]
          rw [a4, a100, a400]
          omega
      · have hb12 : daysBeforeMonth x.y 12 = 334 := by
          simp [daysBeforeMonth, isLeap, hyl]
        simp only [toOrd]
        rw [hm, hd, hb1, hb12]
        by_cases h4 : x.y % 4 = 0
        · have h100 : x.y % 100 = 0 := by
            by_contra hc
            exact hyl ⟨h4, Or.inl hc⟩
          have h400 : x.y % 400 ≠ 0 := by
            intro hc
            exact hyl ⟨h4, Or.inr hc⟩
          have a4 : x.y / 4 = (x.y - 1) / 4 + 1 := by omega
          have a100 : x.y / 100 = (x.y - 1) / 100 + 1 := by omega
          have a400 : x.y / 400 = (x.y - 1) / 400 := by omega
          have b100 : (x.y - 1) / 100 + 1 ≤ (x.y - 1) / 4 + 1 := by omega
          simp only [Nat.add_sub_cancel]
          rw [a4, a100, a400]
          omega
        · have h100 : x.y % 100 ≠ 0 := by omega
          have h400 : x.y % 400 ≠ 0 := by omega
          have a4 : x.y / 4 = (x.y - 1) / 4 := by omega
          have a100 : x.y / 100 = (x.y - 1) / 100 := by omega
          have a400 : x.y / 400 = (x.y - 1) / 400 := by omega
          simp only [Nat.add_sub_cancel]
          rw [a4, a100, a400]
          omega

theorem addDaysYmd_valid_toOrd (k : Nat) (x : Ymd) (h : validYMD x) :
    validYMD (addDaysYmd x k) ∧ toOrd (addDaysYmd x k) = toOrd x + k := by
  induction k generalizing x with
  | zero => simpa [addDaysYmd] using h
  | succ n ih =>
    obtain ⟨hv, ht⟩ := nextDay_valid_toOrd x h
    obtain ⟨hv2, ht2⟩ := ih (nextDay x) hv
    refine ⟨by simpa [addDaysYmd] using hv2, ?_⟩
    simp only [addDaysYmd]
    omega

theorem toOrd_pos (x : Ymd) (h : validYMD x) : 1 ≤ toOrd x := by
  obtain ⟨hy, hm1, hm2, hd1, hd2⟩ := h
  simp only [toOrd]
  omega

theorem weekday_lt_7 (x : Ymd) : weekday x < 7 := by
  unfold weekday
  omega

theorem find_next_weekday_eq_addDays (dt : PyDateTime)
    (hw : 1 ≤ weekday dt.date) :
    AddressBook.find_next_weekday dt 0
      = addDaysDT dt (7 - weekday dt.date) := by
  have h7 := weekday_lt_7 dt.date
  have hcond : ((0 : Nat) : Int) - (weekday dt.date : Int) ≤ 0 := by
    omega
  have htn : (((0 : Nat) : Int) - (weekday dt.date : Int) + 7).toNat
      = 7 - weekday dt.date := by
    omega
  simp only [AddressBook.find_next_weekday]
  rw [if_pos hcond, htn]

theorem adjust_for_weekend_monday (dt : PyDateTime) (hv : validYMD dt.date)
    (hw : 5 ≤ weekday dt.date) :
    weekday (AddressBook.adjust_for_weekend dt).date = 0
      ∧ toOrd dt.date < toOrd (AddressBook.adjust_for_weekend dt).date
      ∧ toOrd (AddressBook.adjust_for_weekend dt).date ≤ toOrd dt.date + 2
      ∧ (AddressBook.adjust_for_weekend dt).secs = dt.secs := by
  have h7 := weekday_lt_7 dt.date
  have hpos := toOrd_pos dt.date hv
  unfold AddressBook.adjust_for_weekend
  rw [if_pos hw, find_next_weekday_eq_addDays dt (by omega)]
  obtain ⟨hv2, ht⟩ :=
    addDaysYmd_valid_toOrd (7 - weekday dt.date) dt.date hv
  unfold addDaysDT
  refine ⟨?_, ?_, ?_, rfl⟩
  · show (toOrd (addDaysYmd dt.date (7 - weekday dt.date)) - 1) % 7 = 0
    rw [ht]
    unfold weekday at hw h7 ⊢
    omega
  · show toOrd dt.date < toOrd (addDaysYmd dt.date (7 - weekday dt.date))
    rw [ht]
    unfold weekday at hw h7 ⊢
    omega
  · show toOrd (addDaysYmd dt.date (7 - weekday dt.date)) ≤ toOrd dt.date + 2
    rw [ht]
    unfold weekday at hw h7 ⊢
    omega

/-! ### Membership in the upcoming-birthdays mapping -/

theorem hasName_nil (x : String) : ¬ hasName [] x := by
  rintro ⟨kl, hkl, _⟩
  simp at hkl

theorem hasName_addToKey (acc : List (String × List String)) (k n x : String) :
    hasName (AddressBook.addToKey acc k n) x ↔ x = n ∨ hasName acc x := by
  induction acc with
  | nil =>
    simp [AddressBook.addToKey, hasName]
  | cons kl rest ih =>
    obtain ⟨k', l⟩ := kl
    simp only [AddressBook.addToKey]
    split_ifs with hk
    · constructor
      · rintro ⟨p, hp, hx⟩
        rcases List.mem_cons.mp hp with h | h
        · subst h
          rcases List.mem_append.mp hx with h | h
          · exact Or.inr ⟨(k', l), List.mem_cons_self _ _, h⟩
          · simp at h
            exact Or.inl h
        · exact Or.inr ⟨p, List.mem_cons_of_mem _ h, hx⟩
      · rintro (h | ⟨p, hp, hx⟩)
        · exact ⟨(k', l ++ [n]), List.mem_cons_self _ _, by simp [h]⟩
        · rcases List.mem_cons.mp hp with h | h
          · subst h
            exact ⟨(k', l ++ [n]), List.mem_cons_self _ _, by simp [hx]⟩
          · exact ⟨p, List.mem_cons_of_mem _ h, hx⟩
    · constructor
      · rintro ⟨p, hp, hx⟩
        rcases List.mem_cons.mp hp with h | h
        · subst h
          exact Or.inr ⟨(k', l), List.mem_cons_self _ _, hx⟩
        · rcases (ih.mp ⟨p, h, hx⟩) with h2 | ⟨q, hq, hxq⟩
          · exact Or.inl h2
          · exact Or.inr ⟨q, List.mem_cons_of_mem _ hq, hxq⟩
      · rintro (h | ⟨p, hp, hx⟩)
        · obtain ⟨q, hq, hxq⟩ := (ih.mpr (Or.inl h))
          exact ⟨q, List.mem_cons_of_mem _ hq, hxq⟩
        · rcases List.mem_cons.mp hp with h2 | h2
          · subst h2
            exact ⟨(k', l), List.mem_cons_self _ _, hx⟩
          · obtain ⟨q, hq, hxq⟩ := (ih.mpr (Or.inr ⟨p, h2, hx⟩))
            exact ⟨q, List.mem_cons_of_mem _ hq, hxq⟩

theorem keyList_addToKey_self (acc : List (String × List String))
    (k n : String) : n ∈ keyList (AddressBook.addToKey acc k n) k := by
  induction acc with
  | nil =>
    simp [AddressBook.addToKey, keyList, lookupEvents]
  | cons kl rest ih =>
    obtain ⟨k', l⟩ := kl
    simp only [AddressBook.addToKey]
    split_ifs with hk
    · subst hk
      simp [keyList, lookupEvents]
    · simpa [keyList, lookupEvents, hk] using ih

theorem keyList_addToKey_mono (acc : List (String × List String))
    (k n k' x : String) (h : x ∈ keyList acc k') :
    x ∈ keyList (AddressBook.addToKey acc k n) k' := by
  induction acc with
  | nil =>
    simp [keyList, lookupEvents] at h
  | cons kl rest ih =>
    obtain ⟨k0, l⟩ := kl
    simp only [AddressBook.addToKey]
    split_ifs with hk
    · by_cases hk2 : k0 = k'
      · subst hk2
        simp only [keyList, lookupEvents, if_pos rfl, Option.getD_some] at h ⊢
        exact List.mem_append_left _ h
      · simpa [keyList, lookupEvents, hk2] using h
    · by_cases hk2 : k0 = k'
      · subst hk2
        simpa [keyList, lookupEvents] using h
      · simp only [keyList, lookupEvents, if_neg hk2] at h ⊢
        exact ih (by simpa [keyList] using h)

theorem upcomingAux_keyList_mono (today : PyDateTime) (days : Nat)
    (entries : Book) (acc m : List (String × List String)) (x k : String)
    (hok : AddressBook.upcomingAux today days entries acc = .ok m)
    (h : x ∈ keyList acc k) : x ∈ keyList m k := by
  induction entries generalizing acc with
  | nil =>
    simp only [AddressBook.upcomingAux] at hok
    injection hok with h2
    subst h2
    exact h
  | cons e rest ih =>
    obtain ⟨name, r⟩ := e
    cases hb : r.birthday with
    | none =>
      simp only [AddressBook.upcomingAux, hb] at hok
      exact ih acc hok h
    | some b =>
      cases ho : AddressBook.occOf b today with
      | none =>
        simp only [AddressBook.upcomingAux, hb, ho] at hok
        exact (Except.noConfusion hok)
      | some real =>
        simp only [AddressBook.upcomingAux, hb, ho] at hok
        by_cases hc : 0 ≤ subDays real today
            ∧ subDays real today ≤ (days : Int)
        · rw [if_pos hc] at hok
          exact ih _ hok (keyList_addToKey_mono acc _ name k x h)
        · rw [if_neg hc] at hok
          exact ih acc hok h

theorem upcomingAux_hasName_frame (today : PyDateTime) (days : Nat)
    (entries : Book) (acc m : List (String × List String)) (x : String)
    (hok : AddressBook.upcomingAux today days entries acc = .ok m)
    (hx : x ∉ entries.map Prod.fst) : hasName m x ↔ hasName acc x := by
  induction entries generalizing acc with
  | nil =>
    simp only [AddressBook.upcomingAux] at hok
    injection hok with h2
    subst h2
    exact Iff.rfl
  | cons e rest ih =>
    obtain ⟨name, r⟩ := e
    simp only [List.map_cons, List.mem_cons, not_or] at hx
    obtain ⟨hx1, hx2⟩ := hx
    cases hb : r.birthday with
    | none =>
      simp only [AddressBook.upcomingAux, hb] at hok
      exact ih acc hok hx2
    | some b =>
      cases ho : AddressBook.occOf b today with
      | none =>
        simp only [AddressBook.upcomingAux, hb, ho] at hok
        exact (Except.noConfusion hok)
      | some real =>
        simp only [AddressBook.upcomingAux, hb, ho] at hok
        by_cases hc : 0 ≤ subDays real today
            ∧ subDays real today ≤ (days : Int)
        · rw [if_pos hc] at hok
          rw [ih _ hok hx2, hasName_addToKey]
          simp [hx1]
        · rw [if_neg hc] at hok
          exact ih acc hok hx2

theorem upcomingAux_mem_spec (today : PyDateTime) (days : Nat)
    (entries : Book) (acc m : List (String × List String))
    (name : String) (rec : PyRecord) (b : PyDateTime)
    (hok : AddressBook.upcomingAux today days entries acc = .ok m)
    (hnd : (entries.map Prod.fst).Nodup)
    (hmem : (name, rec) ∈ entries)
    (hB : rec.birthday = some b)
    (hacc : ¬ hasName acc name) :
    (hasName m name ↔ ∃ real, AddressBook.occOf b today = some real
        ∧ 0 ≤ subDays real today ∧ subDays real today ≤ (days : Int))
    ∧ (∀ real, AddressBook.occOf b today = some real →
        0 ≤ subDays real today → subDays real today ≤ (days : Int) →
        name ∈ keyList m
          (AddressBook.date_to_string (AddressBook.adjust_for_weekend real))) := by
  induction entries generalizing acc with
  | nil =>
    simp at hmem
  | cons e rest ih =>
    obtain ⟨n0, r0⟩ := e
    simp only [List.map_cons, List.nodup_cons] at hnd
    obtain ⟨hn0, hnd'⟩ := hnd
    rcases List.mem_cons.mp hmem with heq | hmemr
    · injection heq with h1 h2
      subst h1
      subst h2
      cases ho : AddressBook.occOf b today with
      | none =>
        simp only [AddressBook.upcomingAux, hB, ho] at hok
        exact (Except.noConfusion hok)
      | some real =>
        simp only [AddressBook.upcomingAux, hB, ho] at hok
        by_cases hc : 0 ≤ subDays real today
            ∧ subDays real today ≤ (days : Int)
        · rw [if_pos hc] at hok
          constructor
          · rw [upcomingAux_hasName_frame today days rest _ m name hok hn0,
              hasName_addToKey]
            exact Iff.intro (fun _ => ⟨real, rfl, hc.1, hc.2⟩)
              (fun _ => Or.inl rfl)
          · intro real2 ho2 h1 h2
            injection ho2 with h3
            subst h3
            exact upcomingAux_keyList_mono today days rest _ m name _ hok
              (keyList_addToKey_self acc _ name)
        · rw [if_neg hc] at hok
          constructor
          · rw [upcomingAux_hasName_frame today days rest acc m name hok hn0]
            constructor
            · intro h
              exact absurd h hacc
            · rintro ⟨real2, ho2, h1, h2⟩
              injection ho2 with h3
              subst h3
              exact absurd ⟨h1, h2⟩ hc
          · intro real2 ho2 h1 h2
            injection ho2 with h3
            subst h3
            exact absurd ⟨h1, h2⟩ hc
    · have hname : name ≠ n0 := by
        intro h
        subst h
        exact hn0 (List.mem_map_of_mem Prod.fst hmemr)
      cases hb0 : r0.birthday with
      | none =>
        simp only [AddressBook.upcomingAux, hb0] at hok
        exact ih acc hok hnd' hmemr hacc
      | some b0 =>
        cases ho0 : AddressBook.occOf b0 today with
        | none =>
          simp only [AddressBook.upcomingAux, hb0, ho0] at hok
          exact (Except.noConfusion hok)
        | some real0 =>
          simp only [AddressBook.upcomingAux, hb0, ho0] at hok
          by_cases hc0 : 0 ≤ subDays real0 today
              ∧ subDays real0 today ≤ (days : Int)
          · rw [if_pos hc0] at hok
            refine ih _ hok hnd' hmemr ?_
            rw [hasName_addToKey]
            rintro (h | h)
            · exact hname h
            · exact hacc h
          · rw [if_neg hc0] at hok
            exact ih acc hok hnd' hmemr hacc

/-! ### Phone validation and record mutation lemmas -/

theorem mkPhone_spec (s : String) :
    (s.length = 10 ∧ (∀ c ∈ s.data, c.isDigit) → mkPhone s = .ok s)
    ∧ ((s.length ≠ 10 ∨ ∃ c ∈ s.data, ¬ c.isDigit) →
        mkPhone s = .error .phoneError) := by
  have hlen : s.length = s.data.length := rfl
  constructor
  · rintro ⟨h1, h2⟩
    have hne : ¬ s.data.isEmpty := by
      rw [List.isEmpty_iff]
      intro hnil
      rw [hnil] at hlen
      simp at hlen
      omega
    have hall : s.data.all Char.isDigit = true :=
      List.all_eq_true.mpr (fun c hc => h2 c hc)
    simp [mkPhone, isdigitStr, h1, hne, hall]
  · intro h
    rcases h with h1 | ⟨c, hc, hcd⟩
    · simp [mkPhone, h1]
    · have hall : ¬ s.data.all Char.isDigit = true := by
        rw [List.all_eq_true]
        intro hforall
        exact hcd (hforall c hc)
      simp [mkPhone, isdigitStr, hall]

theorem findIdx_none_iff (l : List String) (p : String) :
    PyRecord.findIdx l p = none ↔ p ∉ l := by
  induction l with
  | nil => simp [PyRecord.findIdx]
  | cons q rest ih =>
    by_cases hq : q = p
    · subst hq
      simp [PyRecord.findIdx]
    · simp [PyRecord.findIdx, hq, ih, Ne.symm hq]

theorem findIdx_first_split (l1 l2 : List String) (p : String)
    (h : p ∉ l1) :
    PyRecord.findIdx (l1 ++ p :: l2) p = some l1.length := by
  induction l1 with
  | nil => simp [PyRecord.findIdx]
  | cons q rest ih =>
    simp only [List.mem_cons, not_or] at h
    obtain ⟨hq, hrest⟩ := h
    simp [PyRecord.findIdx, Ne.symm hq, ih hrest]

theorem eraseIdx_first_split (l1 l2 : List String) (p : String) :
    (l1 ++ p :: l2).eraseIdx l1.length = l1 ++ l2 := by
  induction l1 with
  | nil => simp
  | cons q rest ih => simp [ih]

theorem exists_first_split (l : List String) (p : String) (h : p ∈ l) :
    ∃ l1 l2, l = l1 ++ p :: l2 ∧ p ∉ l1 := by
  induction l with
  | nil => simp at h
  | cons q rest ih =>
    by_cases hq : q = p
    · subst hq
      exact ⟨[], rest, rfl, by simp⟩
    · rcases List.mem_cons.mp h with h2 | h2
      · exact absurd h2.symm hq
      · obtain ⟨l1, l2, hsplit, hnot⟩ := ih h2
        exact ⟨q :: l1, l2, by simp [hsplit], by simp [hnot, Ne.symm hq]⟩

/-! ### Claim theorems -/

/-- C6: for every string of exactly 10 decimal digits, `Phone`
construction succeeds and stores the string unchanged; for every string
of a different length or containing a non-digit character, construction
fails with `PhoneError`. -/
theorem claim_phone_validation (s : String) :
    (s.length = 10 ∧ (∀ c ∈ s.data, c.isDigit) → mkPhone s = .ok s)
    ∧ ((s.length ≠ 10 ∨ ∃ c ∈ s.data, ¬ c.isDigit) →
        mkPhone s = .error .phoneError) :=
  mkPhone_spec s

/-- Witness for C6 at two concrete inputs. -/
theorem claim_phone_validation_witness :
    mkPhone "0123456789" = .ok "0123456789"
      ∧ mkPhone "123" = .error .phoneError :=
  ⟨(claim_phone_validation "0123456789").1 (by decide),
   (claim_phone_validation "123").2 (Or.inl (by decide))⟩

/-- C5: `Record.edit_phone` is atomic: when the current phone is
present and the new phone string is invalid, the call fails with
`PhoneError` and the record (in particular its phone list) is exactly
the one before the call. -/
theorem claim_edit_phone_atomic (rec : PyRecord) (cur new : String)
    (hcur : cur ∈ rec.phones)
    (hbad : new.length ≠ 10 ∨ ∃ c ∈ new.data, ¬ c.isDigit) :
    PyRecord.edit_phone rec cur new = (rec, .error .phoneError) := by
  have hmk := (mkPhone_spec new).2 hbad
  obtain ⟨l1, l2, hsplit, hnot⟩ := exists_first_split rec.phones cur hcur
  have hf : PyRecord.findIdx rec.phones cur = some l1.length := by
    rw [hsplit]
    exact findIdx_first_split l1 l2 cur hnot
  simp only [PyRecord.edit_phone, hf, hmk]

/-- Witness for C5 at a concrete record. -/
theorem claim_edit_phone_atomic_witness :
    PyRecord.edit_phone ⟨"Alice", ["0123456789"], none⟩ "0123456789" "123"
      = (⟨"Alice", ["0123456789"], none⟩, .error .phoneError) :=
  claim_edit_phone_atomic ⟨"Alice", ["0123456789"], none⟩ "0123456789" "123"
    (by decide) (Or.inl (by decide))

/-- C7 counterexample: the claim says a whitespace-only name must be
rejected, but a single-space name is accepted by the `Name` of both
files (`07.py` does not validate at all, `hw_07.py` only rejects the
empty string). -/
theorem claim_name_whitespace_accepted :
    mkName07 " " = .ok " " ∧ mkNameHw " " = .ok " " := by
  constructor
  · rfl
  · rfl

/-- C7 amended: `Name` of `07.py` accepts every string unchanged;
`Name` of `hw_07.py` fails (with `ValueError`) exactly on the empty
string and accepts every non-empty string, including whitespace-only
ones. -/
theorem claim_name_validation :
    (∀ s : String, mkName07 s = .ok s)
    ∧ mkNameHw "" = .error .valueError
    ∧ (∀ s : String, s ≠ "" → mkNameHw s = .ok s) := by
  refine ⟨fun s => rfl, rfl, fun s h => ?_⟩
  simp [mkNameHw, h]

/-- Witness for C7 amended at concrete names. -/
theorem claim_name_validation_witness :
    mkName07 "Alice" = .ok "Alice" ∧ mkNameHw "Bob" = .ok "Bob" :=
  ⟨claim_name_validation.1 "Alice",
   claim_name_validation.2.2 "Bob" (by decide)⟩

/-- C8 counterexample: with the same phone value stored twice,
removing it twice removes both copies, so the second call is not a
no-op and `remove_phone` is not idempotent as claimed. -/
theorem claim_remove_phone_not_idempotent :
    PyRecord.remove_phone
        (PyRecord.remove_phone
          ⟨"A", ["0123456789", "0123456789"], none⟩ "0123456789")
        "0123456789"
      ≠ PyRecord.remove_phone
          ⟨"A", ["0123456789", "0123456789"], none⟩ "0123456789" := by
  decide

/-- C8 amended: `remove_phone` removes the first phone whose value
equals the argument and is a no-op (not an error) when no phone
matches; it is idempotent provided the value occurs at most once in
the phone list. -/
theorem claim_remove_phone_props :
    (∀ (r : PyRecord) (p : String), r.phones.count p ≤ 1 →
        PyRecord.remove_phone (PyRecord.remove_phone r p) p
          = PyRecord.remove_phone r p)
    ∧ (∀ (r : PyRecord) (p : String) (l1 l2 : List String),
        r.phones = l1 ++ p :: l2 → p ∉ l1 →
        (PyRecord.remove_phone r p).phones = l1 ++ l2)
    ∧ (∀ (r : PyRecord) (p : String), p ∉ r.phones →
        PyRecord.remove_phone r p = r) := by
  have hno : ∀ (r : PyRecord) (p : String), p ∉ r.phones →
      PyRecord.remove_phone r p = r := by
    intro r p h
    unfold PyRecord.remove_phone
    rw [(findIdx_none_iff _ _).mpr h]
  have hfirst : ∀ (r : PyRecord) (p : String) (l1 l2 : List String),
      r.phones = l1 ++ p :: l2 → p ∉ l1 →
      (PyRecord.remove_phone r p).phones = l1 ++ l2 := by
    intro r p l1 l2 hsplit hnot
    have hf : PyRecord.findIdx r.phones p = some l1.length := by
      rw [hsplit]
      exact findIdx_first_split l1 l2 p hnot
    simp only [PyRecord.remove_phone, hf]
    rw [hsplit]
    exact eraseIdx_first_split l1 l2 p
  refine ⟨?_, hfirst, hno⟩
  intro r p hcount
  by_cases hp : p ∈ r.phones
  · obtain ⟨l1, l2, hsplit, hnot1⟩ := exists_first_split r.phones p hp
    have hc2 : l2.count p = 0 := by
      rw [hsplit, List.count_append, List.count_cons_self] at hcount
      omega
    have h2 : p ∉ l2 := List.count_eq_zero.mp hc2
    have hres : (PyRecord.remove_phone r p).phones = l1 ++ l2 :=
      hfirst r p l1 l2 hsplit hnot1
    apply hno
    rw [hres]
    simp [hnot1, h2]
  · rw [hno r p hp, hno r p hp]

/-- Witness for C8 amended at concrete records. -/
theorem claim_remove_phone_props_witness :
    PyRecord.remove_phone
        (PyRecord.remove_phone ⟨"A", ["0123456789"], none⟩ "0123456789")
        "0123456789"
      = PyRecord.remove_phone ⟨"A", ["0123456789"], none⟩ "0123456789"
    ∧ PyRecord.remove_phone ⟨"A", ["0123456789"], none⟩ "5550000000"
      = ⟨"A", ["0123456789"], none⟩ :=
  ⟨claim_remove_phone_props.1 ⟨"A", ["0123456789"], none⟩ "0123456789"
      (by decide),
   claim_remove_phone_props.2.2 ⟨"A", ["0123456789"], none⟩ "5550000000"
      (by decide)⟩

/-- C9: the `show-birthday` handler renders an unset birthday as the
string `None` (Python `str(None)`), not as `Unknown` — the `Unknown`
branch of `Birthday.__str__` is unreachable because an unset birthday
is the object `None`, not a `Birthday`; a present birthday renders in
`DD.MM.YYYY` format. -/
theorem claim_show_birthday_renders :
    Bot.show_birthday ["Alice"] [("Alice", ⟨"Alice", ["0123456789"], none⟩)]
      = .ok ("None", [("Alice", ⟨"Alice", ["0123456789"], none⟩)])
    ∧ Bot.show_birthday ["Bob"]
        [("Bob", ⟨"Bob", ["0123456789"], some ⟨⟨2000, 3, 15⟩, 0⟩⟩)]
      = .ok ("15.03.2000",
        [("Bob", ⟨"Bob", ["0123456789"], some ⟨⟨2000, 3, 15⟩, 0⟩⟩)])
    ∧ "None" ≠ "Unknown" := by
  refine ⟨rfl, rfl, by decide⟩

/-- C2: a stored birthday of 29.02.2000 with reference date 10.03.2025
(a non-leap year) makes `birthday.replace(year=2025)` raise
`ValueError`, which propagates out of `get_upcoming_birthdays`; the
`birthdays` translator then catches the `ValueError` and reports
"Birthdays list is empty." instead of the Mar 1 resolution the
specification requires. -/
theorem claim_feb29_raises :
    AddressBook.get_upcoming_birthdays
        [("A", ⟨"A", ["0123456789"], some ⟨⟨2000, 2, 29⟩, 0⟩⟩)]
        ⟨⟨2025, 3, 10⟩, 0⟩ 7
      = .error .valueError
    ∧ runCommand Cmd.birthdaysCmd ⟨⟨2025, 3, 10⟩, 0⟩ []
        [("A", ⟨"A", ["0123456789"], some ⟨⟨2000, 2, 29⟩, 0⟩⟩)]
      = .ok ("Birthdays list is empty.",
        [("A", ⟨"A", ["0123456789"], some ⟨⟨2000, 2, 29⟩, 0⟩⟩)]) := by
  refine ⟨rfl, rfl⟩

theorem birthdays_book_unchanged (today : PyDateTime) (args : List String)
    (book : Book) (s : String) (book2 : Book)
    (h : runCommand Cmd.birthdaysCmd today args book = .ok (s, book2)) :
    book2 = book := by
  cases hb : Bot.birthdays today book with
  | ok r =>
    have hr : r.2 = book := by
      cases he : AddressBook.get_upcoming_birthdays book today 7 with
      | error e =>
        simp only [Bot.birthdays, he] at hb
        exact (Except.noConfusion hb)
      | ok events =>
        cases ht : Bot.table "Date" "Users"
            (events.map (fun kv => (kv.1, String.intercalate ", " kv.2))) with
        | error e =>
          simp only [Bot.birthdays, he, ht] at hb
          exact (Except.noConfusion hb)
        | ok s2 =>
          simp only [Bot.birthdays, he, ht] at hb
          injection hb with h2
          rw [← h2]
    simp only [runCommand, hb] at h
    injection h with h2
    rw [h2] at hr
    exact hr
  | error e =>
    cases e with
    | valueError =>
      simp only [runCommand, hb] at h
      injection h with h2
      injection h2 with h3 h4
      exact h4.symm
    | phoneError =>
      simp only [runCommand, hb] at h
      exact (Except.noConfusion h)
    | birthdayError =>
      simp only [runCommand, hb] at h
      exact (Except.noConfusion h)
    | recordError =>
      simp only [runCommand, hb] at h
      exact (Except.noConfusion h)
    | indexError =>
      simp only [runCommand, hb] at h
      exact (Except.noConfusion h)

/-- C3: an in-window occurrence falling on Saturday or Sunday (weekday
at least 5) is reported on the following Monday: the adjusted date is a
Monday, strictly later, at most two days ahead, with the time of day
untouched; the `birthdays` command never changes the stored records;
and concretely a contact with birthday 15.03 of any stored year, with
reference date 10.03.2025 and window 7, appears exactly under the key
"17.03.2025". -/
theorem claim_weekend_to_monday :
    (∀ dt : PyDateTime, validYMD dt.date → 5 ≤ weekday dt.date →
        weekday (AddressBook.adjust_for_weekend dt).date = 0
        ∧ toOrd dt.date < toOrd (AddressBook.adjust_for_weekend dt).date
        ∧ toOrd (AddressBook.adjust_for_weekend dt).date ≤ toOrd dt.date + 2
        ∧ (AddressBook.adjust_for_weekend dt).secs = dt.secs)
    ∧ (∀ (today : PyDateTime) (args : List String) (book : Book)
        (s : String) (book2 : Book),
        runCommand Cmd.birthdaysCmd today args book = .ok (s, book2) →
        book2 = book)
    ∧ (∀ y : Nat,
        AddressBook.get_upcoming_birthdays
          [("X", ⟨"X", ["0123456789"], some ⟨⟨y, 3, 15⟩, 0⟩⟩)]
          ⟨⟨2025, 3, 10⟩, 0⟩ 7
        = .ok [("17.03.2025", ["X"])]) :=
  by
  refine ⟨adjust_for_weekend_monday, birthdays_book_unchanged, fun y => ?_⟩
  have ho : AddressBook.occOf ⟨⟨y, 3, 15⟩, 0⟩ ⟨⟨2025, 3, 10⟩, 0⟩
      = some ⟨⟨2025, 3, 15⟩, 0⟩ := rfl
  simp only [AddressBook.get_upcoming_birthdays, AddressBook.upcomingAux, ho]
  rfl

/-- Witness for C3: 15.03.2025 is a Saturday whose adjustment is a
Monday, and the concrete book scenario produces the key 17.03.2025. -/
theorem claim_weekend_to_monday_witness :
    weekday (AddressBook.adjust_for_weekend ⟨⟨2025, 3, 15⟩, 0⟩).date = 0
    ∧ AddressBook.get_upcoming_birthdays
        [("X", ⟨"X", ["0123456789"], some ⟨⟨2000, 3, 15⟩, 0⟩⟩)]
        ⟨⟨2025, 3, 10⟩, 0⟩ 7 = .ok [("17.03.2025", ["X"])] :=
  ⟨(claim_weekend_to_monday.1 ⟨⟨2025, 3, 15⟩, 0⟩ (by decide) (by decide)).1,
   claim_weekend_to_monday.2.2 2000⟩

/-- C4: for a record with a birthday in a book with distinct keys, when
`get_upcoming_birthdays` returns a mapping, the contact appears in it
exactly when the occurrence of its birthday (this year, rolled to next
year when strictly earlier than the reference datetime) lies within
`0 ≤ (occurrence − referenceDate).days ≤ windowDays`. -/
theorem claim_upcoming_window (book : Book) (today : PyDateTime)
    (days : Nat) (name : String) (rec : PyRecord) (b : PyDateTime)
    (hnd : (book.map Prod.fst).Nodup)
    (hmem : (name, rec) ∈ book)
    (hB : rec.birthday = some b)
    (m : List (String × List String))
    (hok : AddressBook.get_upcoming_birthdays book today days = .ok m) :
    hasName m name
      ↔ ∃ real, AddressBook.occOf b today = some real
          ∧ 0 ≤ subDays real today ∧ subDays real today ≤ (days : Int) :=
  (upcomingAux_mem_spec today days book [] m name rec b hok hnd hmem hB
    (hasName_nil name)).1

/-- Witness for C4: an occurrence exactly 7 days ahead (17.03.2025) is
included; one a day further (18.03.2025) is excluded, as its empty
result shows through the same equivalence. -/
theorem claim_upcoming_window_witness :
    hasName [("17.03.2025", ["X"])] "X"
    ∧ (hasName ([] : List (String × List String)) "Y"
        ↔ ∃ real, AddressBook.occOf ⟨⟨2000, 3, 18⟩, 0⟩ ⟨⟨2025, 3, 10⟩, 0⟩
              = some real
            ∧ 0 ≤ subDays real ⟨⟨2025, 3, 10⟩, 0⟩
            ∧ subDays real ⟨⟨2025, 3, 10⟩, 0⟩ ≤ ((7 : Nat) : Int)) := by
  constructor
  · exact (claim_upcoming_window
      [("X", ⟨"X", ["0123456789"], some ⟨⟨2000, 3, 17⟩, 0⟩⟩)]
      ⟨⟨2025, 3, 10⟩, 0⟩ 7 "X"
      ⟨"X", ["0123456789"], some ⟨⟨2000, 3, 17⟩, 0⟩⟩
      ⟨⟨2000, 3, 17⟩, 0⟩ (by decide) (by decide) rfl
      [("17.03.2025", ["X"])] rfl).mpr
      ⟨⟨⟨2025, 3, 17⟩, 0⟩, rfl, by decide, by decide⟩
  · exact claim_upcoming_window
      [("Y", ⟨"Y", ["0123456789"], some ⟨⟨2000, 3, 18⟩, 0⟩⟩)]
      ⟨⟨2025, 3, 10⟩, 0⟩ 7 "Y"
      ⟨"Y", ["0123456789"], some ⟨⟨2000, 3, 18⟩, 0⟩⟩
      ⟨⟨2000, 3, 18⟩, 0⟩ (by decide) (by decide) rfl [] rfl

/-! ### Totality of the wrapped command handlers -/

theorem lookupA_mem (book : Book) (n : String) (r : PyRecord)
    (h : AddressBook.lookupA book n = some r) : (n, r) ∈ book := by
  induction book with
  | nil => simp [AddressBook.lookupA] at h
  | cons kv rest ih =>
    obtain ⟨k, r0⟩ := kv
    simp only [AddressBook.lookupA] at h
    split_ifs at h with hk
    · injection h with h2
      subst h2
      subst hk
      exact List.mem_cons_self _ _
    · exact List.mem_cons_of_mem _ (ih h)

theorem mkPhone_error_kind (s : String) (e : PyErr)
    (h : mkPhone s = .error e) : e = .phoneError := by
  unfold mkPhone at h
  split_ifs at h
  injection h with h2
  exact h2.symm

theorem mkBirthday_error_kind (s : String) (e : PyErr)
    (h : mkBirthday s = .error e) : e = .birthdayError := by
  unfold mkBirthday at h
  split at h
  · split_ifs at h <;>
      first
        | exact (Except.noConfusion h)
        | (injection h with h2; exact h2.symm)
  · injection h with h2
    exact h2.symm

theorem upcomingAux_error_kind (today : PyDateTime) (days : Nat)
    (book : Book) (acc : List (String × List String)) (e : PyErr)
    (h : AddressBook.upcomingAux today days book acc = .error e) :
    e = .valueError := by
  induction book generalizing acc with
  | nil =>
    simp only [AddressBook.upcomingAux] at h
    exact (Except.noConfusion h)
  | cons kv rest ih =>
    obtain ⟨n, r⟩ := kv
    cases hb : r.birthday with
    | none =>
      simp only [AddressBook.upcomingAux, hb] at h
      exact ih acc h
    | some b =>
      cases ho : AddressBook.occOf b today with
      | none =>
        simp only [AddressBook.upcomingAux, hb, ho] at h
        injection h with h2
        exact h2.symm
      | some real =>
        simp only [AddressBook.upcomingAux, hb, ho] at h
        split_ifs at h
        · exact ih _ h
        · exact ih acc h

theorem table_of_ne_nil (l r : String) (data : List (String × String))
    (h : data ≠ []) : ∃ s, Bot.table l r data = .ok s := by
  cases data with
  | nil => exact absurd rfl h
  | cons d ds => exact ⟨_, rfl⟩

theorem allPairs_ok (book : Book)
    (h : ∀ kv ∈ book, kv.2.phones ≠ []) :
    ∃ data, Bot.allPairs book = .ok data ∧ (data = [] ↔ book = []) := by
  induction book with
  | nil => exact ⟨[], rfl, by simp⟩
  | cons kv rest ih =>
    obtain ⟨n, r⟩ := kv
    have hr : r.phones ≠ [] := h (n, r) (List.mem_cons_self _ _)
    obtain ⟨data, hap, _⟩ :=
      ih (fun kv hkv => h kv (List.mem_cons_of_mem _ hkv))
    cases hps : r.phones with
    | nil => exact absurd hps hr
    | cons p ps =>
      refine ⟨(n, p) :: data, ?_, by simp⟩
      simp only [Bot.allPairs, hps, hap]

/-- C1 counterexample: on a book holding a record with no phones (such
records are constructible through the public `addRecord`), the wrapped
change-phone handler hits `record.phones[0]` and the resulting
`IndexError` is not in change-phone's catch table, so the wrapper
raises instead of returning a message. -/
theorem claim_translator_uncaught_indexerror :
    runCommand Cmd.changeContact ⟨⟨2025, 1, 1⟩, 0⟩ ["Bob", "0123456789"]
      [("Bob", ⟨"Bob", [], none⟩)] = .error .indexError := rfl

/-- C1 amended: for every recognised command, argument list, clock
value and book in which every stored record has at least one phone
(which holds for every book built through the command surface), the
wrapped handler returns a message string and never raises: every
failure raised inside the handler is caught by its translator entry. -/
theorem claim_translator_total (cmd : Cmd) (today : PyDateTime)
    (args : List String) (book : Book)
    (hph : ∀ kv ∈ book, kv.2.phones ≠ []) :
    (runCommand cmd today args book).isOk = true := by
  cases cmd with
  | addContact =>
    rcases args with _ | ⟨name, _ | ⟨phone, rest⟩⟩
    · rfl
    · rfl
    · cases hl : AddressBook.lookupA book name with
      | some r =>
        simp only [runCommand, Bot.add_contact, hl, Except.isOk, Except.toBool]
      | none =>
        cases hmk : mkPhone phone with
        | ok p =>
          simp only [runCommand, Bot.add_contact, PyRecord.add_phone,
            hl, hmk, Except.isOk, Except.toBool]
        | error e =>
          have he := mkPhone_error_kind phone e hmk
          subst he
          simp only [runCommand, Bot.add_contact, PyRecord.add_phone,
            hl, hmk, Except.isOk, Except.toBool]
  | changeContact =>
    rcases args with _ | ⟨name, _ | ⟨phone, rest⟩⟩
    · rfl
    · rfl
    · cases hl : AddressBook.lookupA book name with
      | none =>
        simp only [runCommand, Bot.change_contact, AddressBook.find, hl,
          Except.isOk, Except.toBool]
      | some rec =>
        have hr : rec.phones ≠ [] := hph (name, rec) (lookupA_mem book name rec hl)
        cases hps : rec.phones with
        | nil => exact absurd hps hr
        | cons p0 ps =>
          have hfi : PyRecord.findIdx (p0 :: ps) p0 = some 0 := by
            simp [PyRecord.findIdx]
          cases hmk : mkPhone phone with
          | ok p =>
            simp only [runCommand, Bot.change_contact, AddressBook.find,
              hl, hps, PyRecord.edit_phone, hfi, hmk, Except.isOk, Except.toBool]
          | error e =>
            have he := mkPhone_error_kind phone e hmk
            subst he
            simp only [runCommand, Bot.change_contact, AddressBook.find,
              hl, hps, PyRecord.edit_phone, hfi, hmk, Except.isOk, Except.toBool]
  | showPhone =>
    rcases args with _ | ⟨name, rest⟩
    · rfl
    · cases hl : AddressBook.lookupA book name with
      | none =>
        simp only [runCommand, Bot.show_phone, AddressBook.find, hl,
          Except.isOk, Except.toBool]
      | some rec =>
        simp only [runCommand, Bot.show_phone, AddressBook.find, hl,
          Except.isOk, Except.toBool]
  | showAll =>
    obtain ⟨data, hap, hiff⟩ := allPairs_ok book hph
    cases hd : data with
    | nil =>
      have hb : book = [] := hiff.mp hd
      subst hb
      rfl
    | cons d ds =>
      rw [hd] at hap
      obtain ⟨st, hst⟩ :=
        table_of_ne_nil "Full name" "Phone number" (d :: ds) (by simp)
      simp only [runCommand, Bot.show_all, hap, hst, Except.isOk, Except.toBool]
  | addBirthday =>
    rcases args with _ | ⟨name, _ | ⟨bd, rest⟩⟩
    · rfl
    · rfl
    · cases hl : AddressBook.lookupA book name with
      | none =>
        simp only [runCommand, Bot.add_birthday, AddressBook.find, hl,
          Except.isOk, Except.toBool]
      | some rec =>
        cases hmk : mkBirthday bd with
        | ok b =>
          simp only [runCommand, Bot.add_birthday, AddressBook.find, hl,
            PyRecord.add_birthday, hmk, Except.isOk, Except.toBool]
        | error e =>
          have he := mkBirthday_error_kind bd e hmk
          subst he
          simp only [runCommand, Bot.add_birthday, AddressBook.find, hl,
            PyRecord.add_birthday, hmk, Except.isOk, Except.toBool]
  | showBirthday =>
    rcases args with _ | ⟨name, rest⟩
    · rfl
    · cases hl : AddressBook.lookupA book name with
      | none =>
        simp only [runCommand, Bot.show_birthday, AddressBook.find, hl,
          Except.isOk, Except.toBool]
      | some rec =>
        simp only [runCommand, Bot.show_birthday, AddressBook.find, hl,
          Except.isOk, Except.toBool]
  | birthdaysCmd =>
    cases hu : AddressBook.get_upcoming_birthdays book today 7 with
    | error e =>
      have he := upcomingAux_error_kind today 7 book [] e hu
      subst he
      simp only [runCommand, Bot.birthdays, hu, Except.isOk, Except.toBool]
    | ok events =>
      cases hev : events with
      | nil =>
        rw [hev] at hu
        simp only [runCommand, Bot.birthdays, hu, List.map_nil, Bot.table,
          Except.isOk, Except.toBool]
      | cons ev evs =>
        rw [hev] at hu
        obtain ⟨st, hst⟩ := table_of_ne_nil "Date" "Users"
          ((ev :: evs).map (fun kv => (kv.1, String.intercalate ", " kv.2)))
          (by simp)
        simp only [runCommand, Bot.birthdays, hu, hst, Except.isOk, Except.toBool]

/-- Witness for C1 amended: a concrete command run on a one-record
book with a phone. -/
theorem claim_translator_total_witness :
    (runCommand Cmd.changeContact ⟨⟨2025, 1, 1⟩, 0⟩ ["Ann", "5550001111"]
      [("Ann", ⟨"Ann", ["0123456789"], none⟩)]).isOk = true :=
  claim_translator_total Cmd.changeContact ⟨⟨2025, 1, 1⟩, 0⟩
    ["Ann", "5550001111"] [("Ann", ⟨"Ann", ["0123456789"], none⟩)]
    (by decide)

/-! ### Key and name coherence -/

theorem setKey_mem (book : Book) (k : String) (r : PyRecord)
    (kv : String × PyRecord) (h : kv ∈ AddressBook.setKey book k r) :
    kv = (k, r) ∨ kv ∈ book := by
  induction book with
  | nil =>
    simp [AddressBook.setKey] at h
    exact Or.inl h
  | cons kv0 rest ih =>
    obtain ⟨k0, r0⟩ := kv0
    simp only [AddressBook.setKey] at h
    split_ifs at h with hk
    · rcases List.mem_cons.mp h with h2 | h2
      · subst hk
        exact Or.inl h2
      · exact Or.inr (List.mem_cons_of_mem _ h2)
    · rcases List.mem_cons.mp h with h2 | h2
      · rw [h2]
        exact Or.inr (List.mem_cons_self _ _)
      · rcases ih h2 with h3 | h3
        · exact Or.inl h3
        · exact Or.inr (List.mem_cons_of_mem _ h3)

theorem add_record_coherent (book : Book) (r : PyRecord)
    (hco : coherent book) : coherent (AddressBook.add_record book r) := by
  intro kv hkv
  rcases setKey_mem book r.name r kv hkv with h | h
  · rw [h]
  · exact hco kv h

theorem setKey_coherent_of_name (book : Book) (k : String) (r : PyRecord)
    (hco : coherent book) (hr : r.name = k) :
    coherent (AddressBook.setKey book k r) := by
  intro kv hkv
  rcases setKey_mem book k r kv hkv with h | h
  · rw [h]
    exact hr
  · exact hco kv h

theorem delete_mem (book : Book) (n : String) (kv : String × PyRecord)
    (h : kv ∈ AddressBook.delete book n) : kv ∈ book := by
  induction book with
  | nil => simp [AddressBook.delete] at h
  | cons kv0 rest ih =>
    obtain ⟨k0, r0⟩ := kv0
    simp only [AddressBook.delete] at h
    split_ifs at h with hd
    · exact List.mem_cons_of_mem _ h
    · rcases List.mem_cons.mp h with h2 | h2
      · rw [h2]
        exact List.mem_cons_self _ _
      · exact List.mem_cons_of_mem _ (ih h2)

theorem delete_coherent (book : Book) (n : String) (hco : coherent book) :
    coherent (AddressBook.delete book n) := by
  intro kv hkv
  exact hco kv (delete_mem book n kv hkv)

theorem runCommand_coherent (cmd : Cmd) (today : PyDateTime)
    (args : List String) (book : Book) (s : String) (book2 : Book)
    (hco : coherent book)
    (h : runCommand cmd today args book = .ok (s, book2)) :
    coherent book2 := by
  cases cmd with
  | addContact =>
    rcases args with _ | ⟨name, _ | ⟨phone, rest⟩⟩
    · simp only [runCommand, Bot.add_contact] at h
      injection h with h2
      injection h2 with h3 h4
      rw [← h4]
      exact hco
    · simp only [runCommand, Bot.add_contact] at h
      injection h with h2
      injection h2 with h3 h4
      rw [← h4]
      exact hco
    · cases hl : AddressBook.lookupA book name with
      | some r =>
        simp only [runCommand, Bot.add_contact, hl] at h
        injection h with h2
        injection h2 with h3 h4
        rw [← h4]
        exact hco
      | none =>
        cases hmk : mkPhone phone with
        | ok p =>
          simp only [runCommand, Bot.add_contact, PyRecord.add_phone,
            hl, hmk] at h
          injection h with h2
          injection h2 with h3 h4
          rw [← h4]
          exact add_record_coherent book _ hco
        | error e =>
          have he := mkPhone_error_kind phone e hmk
          subst he
          simp only [runCommand, Bot.add_contact, PyRecord.add_phone,
            hl, hmk] at h
          injection h with h2
          injection h2 with h3 h4
          rw [← h4]
          exact hco
  | changeContact =>
    rcases args with _ | ⟨name, _ | ⟨phone, rest⟩⟩
    · simp only [runCommand, Bot.change_contact] at h
      injection h with h2
      injection h2 with h3 h4
      rw [← h4]
      exact hco
    · simp only [runCommand, Bot.change_contact] at h
      injection h with h2
      injection h2 with h3 h4
      rw [← h4]
      exact hco
    · cases hl : AddressBook.lookupA book name with
      | none =>
        simp only [runCommand, Bot.change_contact, AddressBook.find, hl] at h
        injection h with h2
        injection h2 with h3 h4
        rw [← h4]
        exact hco
      | some rec =>
        have hname : rec.name = name :=
          hco (name, rec) (lookupA_mem book name rec hl)
        cases hps : rec.phones with
        | nil =>
          simp only [runCommand, Bot.change_contact, AddressBook.find,
            hl, hps] at h
          exact (Except.noConfusion h)
        | cons p0 ps =>
          have hfi : PyRecord.findIdx (p0 :: ps) p0 = some 0 := by
            simp [PyRecord.findIdx]
          cases hmk : mkPhone phone with
          | ok p =>
            simp only [runCommand, Bot.change_contact, AddressBook.find,
              hl, hps, PyRecord.edit_phone, hfi, hmk] at h
            injection h with h2
            injection h2 with h3 h4
            rw [← h4]
            exact setKey_coherent_of_name book name _ hco hname
          | error e =>
            have he := mkPhone_error_kind phone e hmk
            subst he
            simp only [runCommand, Bot.change_contact, AddressBook.find,
              hl, hps, PyRecord.edit_phone, hfi, hmk] at h
            injection h with h2
            injection h2 with h3 h4
            rw [← h4]
            exact hco
  | showPhone =>
    rcases args with _ | ⟨name, rest⟩
    · simp only [runCommand, Bot.show_phone] at h
      injection h with h2
      injection h2 with h3 h4
      rw [← h4]
      exact hco
    · cases hl : AddressBook.lookupA book name with
      | none =>
        simp only [runCommand, Bot.show_phone, AddressBook.find, hl] at h
        injection h with h2
        injection h2 with h3 h4
        rw [← h4]
        exact hco
      | some rec =>
        simp only [runCommand, Bot.show_phone, AddressBook.find, hl] at h
        injection h with h2
        injection h2 with h3 h4
        rw [← h4]
        exact hco
  | showAll =>
    cases hap : Bot.allPairs book with
    | ok data =>
      cases ht : Bot.table "Full name" "Phone number" data with
      | ok st =>
        simp only [runCommand, Bot.show_all, hap, ht] at h
        injection h with h2
        injection h2 with h3 h4
        rw [← h4]
        exact hco
      | error e =>
        cases e <;> simp only [runCommand, Bot.show_all, hap, ht] at h <;>
          first
            | exact (Except.noConfusion h)
            | (injection h with h2
               injection h2 with h3 h4
               rw [← h4]
               exact hco)
    | error e =>
      cases e <;> simp only [runCommand, Bot.show_all, hap] at h <;>
        first
          | exact (Except.noConfusion h)
          | (injection h with h2
             injection h2 with h3 h4
             rw [← h4]
             exact hco)
  | addBirthday =>
    rcases args with _ | ⟨name, _ | ⟨bd, rest⟩⟩
    · simp only [runCommand, Bot.add_birthday] at h
      injection h with h2
      injection h2 with h3 h4
      rw [← h4]
      exact hco
    · simp only [runCommand, Bot.add_birthday] at h
      injection h with h2
      injection h2 with h3 h4
      rw [← h4]
      exact hco
    · cases hl : AddressBook.lookupA book name with
      | none =>
        simp only [runCommand, Bot.add_birthday, AddressBook.find, hl] at h
        injection h with h2
        injection h2 with h3 h4
        rw [← h4]
        exact hco
      | some rec =>
        have hname : rec.name = name :=
          hco (name, rec) (lookupA_mem book name rec hl)
        cases hmk : mkBirthday bd with
        | ok b =>
          simp only [runCommand, Bot.add_birthday, AddressBook.find, hl,
            PyRecord.add_birthday, hmk] at h
          injection h with h2
          injection h2 with h3 h4
          rw [← h4]
          exact setKey_coherent_of_name book name _ hco hname
        | error e =>
          have he := mkBirthday_error_kind bd e hmk
          subst he
          simp only [runCommand, Bot.add_birthday, AddressBook.find, hl,
            PyRecord.add_birthday, hmk] at h
          injection h with h2
          injection h2 with h3 h4
          rw [← h4]
          exact hco
  | showBirthday =>
    rcases args with _ | ⟨name, rest⟩
    · simp only [runCommand, Bot.show_birthday] at h
      injection h with h2
      injection h2 with h3 h4
      rw [← h4]
      exact hco
    · cases hl : AddressBook.lookupA book name with
      | none =>
        simp only [runCommand, Bot.show_birthday, AddressBook.find, hl] at h
        injection h with h2
        injection h2 with h3 h4
        rw [← h4]
        exact hco
      | some rec =>
        simp only [runCommand, Bot.show_birthday, AddressBook.find, hl] at h
        injection h with h2
        injection h2 with h3 h4
        rw [← h4]
        exact hco
  | birthdaysCmd =>
    rw [birthdays_book_unchanged today args book s book2 h]
    exact hco

/-- C10: key and name coherence: in every address book in which each
stored key equals the name of its record, the public operations
preserve this — `add_record` and `delete` directly, and every wrapped
command handler on its resulting book. -/
theorem claim_key_name_coherence :
    (∀ (book : Book) (r : PyRecord), coherent book →
        coherent (AddressBook.add_record book r))
    ∧ (∀ (book : Book) (n : String), coherent book →
        coherent (AddressBook.delete book n))
    ∧ (∀ (cmd : Cmd) (today : PyDateTime) (args : List String)
        (book : Book) (s : String) (book2 : Book), coherent book →
        runCommand cmd today args book = .ok (s, book2) →
        coherent book2) :=
  ⟨add_record_coherent, delete_coherent,
   fun cmd today args book s book2 hco h =>
     runCommand_coherent cmd today args book s book2 hco h⟩

/-- Witness for C10: insertion into the empty book and a concrete
add-contact run both yield coherent books. -/
theorem claim_key_name_coherence_witness :
    coherent (AddressBook.add_record [] ⟨"Ann", ["0123456789"], none⟩)
    ∧ coherent [("Bob", ⟨"Bob", ["0123456789"], none⟩)] :=
  ⟨claim_key_name_coherence.1 [] ⟨"Ann", ["0123456789"], none⟩
      (by simp [coherent]),
   claim_key_name_coherence.2.2 Cmd.addContact ⟨⟨2025, 1, 1⟩, 0⟩
      ["Bob", "0123456789"] [] "Contact added."
      [("Bob", ⟨"Bob", ["0123456789"], none⟩)] (by simp [coherent]) rfl⟩
